import Mathlib

set_option maxRecDepth 20000

/-!
Shallow embedding of the expression-handling core of `src/script.js`
(a browser calculator).  Buffers and expressions are modelled as `List Char`
(JS strings), JS numbers as the type `JSNum` below: the finite values are
carried as exact rationals (IEEE-754 rounding of individual operations,
overflow to infinity, and the signed zero are not modelled; every claim
below concerns values and string shapes that are exact in both readings),
and the non-finite values `Infinity`, `-Infinity`, `NaN` are explicit
constructors with the JS propagation rules.
-/

/-- Operator characters, the class `[+\-*/]` used throughout `script.js`. -/
def isOpChar (c : Char) : Bool :=
  decide (c = '+' ∨ c = '-' ∨ c = '*' ∨ c = '/')

/-- ECMAScript whitespace: the set matched by `\s` in the validation regex and
removed from the ends by `String.prototype.trim` (WhiteSpace ∪ LineTerminator). -/
def jsWs (c : Char) : Bool :=
  decide (c = ' ' ∨ c = '\t' ∨ c = '\n' ∨ c = '\x0b' ∨ c = '\x0c' ∨ c = '\r' ∨
    c.val = 0xA0 ∨ c.val = 0x1680 ∨ (0x2000 ≤ c.val ∧ c.val ≤ 0x200A) ∨
    c.val = 0x2028 ∨ c.val = 0x2029 ∨ c.val = 0x202F ∨ c.val = 0x205F ∨
    c.val = 0x3000 ∨ c.val = 0xFEFF)

/-- Characters accepted by the validation regex `/^[0-9+\-*/().\s%]+$/`
of `safeEval` (line 74 of `script.js`). -/
def isAllowedChar (c : Char) : Bool :=
  c.isDigit || isOpChar c || decide (c = '(' ∨ c = ')' ∨ c = '.' ∨ c = '%') || jsWs c

/-- Validation test of `safeEval`: the regex `/^[0-9+\-*/().\s%]+$/` demands a
non-empty string all of whose characters are allowed. -/
def validExpression (s : List Char) : Bool :=
  !s.isEmpty && s.all isAllowedChar

/-- JS `String.prototype.trim`: drop ECMAScript whitespace from both ends. -/
def jsTrim (s : List Char) : List Char :=
  (((s.dropWhile jsWs).reverse).dropWhile jsWs).reverse

/-- Scanner for `normalizePercent` (line 52 of `script.js`):
`expr.replace(/(\d+(\.\d+)?)%/g, "($1/100)")`.  The scan moves left to right;
at a digit it takes the maximal digit run, optionally `.` and a maximal digit
run, and on a following `%` emits `(`, the number, `/100)` and resumes after
the `%`; on failure the scan advances one character, exactly as the global
regex engine does.  Fuel is the length of the input, enough because every
step consumes at least one character. -/
def normalizePercentAux : Nat → List Char → List Char
  | 0, s => s
  | _, [] => []
  | fuel+1, c :: rest =>
    if c.isDigit then
      let p := rest.span (fun d => d.isDigit)
      let d := c :: p.1
      match p.2 with
      | '.' :: r2 =>
        let p2 := r2.span (fun d => d.isDigit)
        match p2.1, p2.2 with
        | _ :: _, '%' :: r4 =>
          '(' :: (d ++ '.' :: p2.1 ++ '/' :: '1' :: '0' :: '0' :: ')' ::
            normalizePercentAux fuel r4)
        | _, _ => c :: normalizePercentAux fuel rest
      | '%' :: r2 =>
        '(' :: (d ++ '/' :: '1' :: '0' :: '0' :: ')' :: normalizePercentAux fuel r2)
      | _ => c :: normalizePercentAux fuel rest
    else c :: normalizePercentAux fuel rest

/-- The function `normalizePercent` of `script.js` (lines 50-53). -/
def normalizePercent (s : List Char) : List Char :=
  normalizePercentAux s.length s

/-- Leading-operator strip of `sanitizeExpression` (line 59 of `script.js`):
`if (/^[+*/]/.test(expr)) expr = expr.slice(1)` — one leading `+`, `*` or `/`
is removed; a leading `-` is kept. -/
def stripLeadingOp : List Char → List Char
  | [] => []
  | c :: rest => if decide (c = '+' ∨ c = '*' ∨ c = '/') then rest else c :: rest

/-- Repeated-operator collapse of `sanitizeExpression` (line 62 of
`script.js`): `expr.replace(/([+\-*/]){2,}/g, (m) => m[m.length - 1])` — every
maximal run of two or more operator characters is replaced by its last
character; the recursion below drops the first of two adjacent operator
characters, which collapses every maximal run to its final character. -/
def collapseOps : List Char → List Char
  | [] => []
  | [c] => [c]
  | a :: b :: rest =>
    if isOpChar a && isOpChar b then collapseOps (b :: rest)
    else a :: collapseOps (b :: rest)

/-- The function `sanitizeExpression` of `script.js` (lines 56-65):
trim, strip one leading `+`/`*`/`/`, collapse repeated operators. -/
def sanitizeExpression (s : List Char) : List Char :=
  collapseOps (stripLeadingOp (jsTrim s))

/-- JS number: finite values carried as exact rationals, plus the three
non-finite values.  (IEEE rounding, overflow and signed zero not modelled.) -/
inductive JSNum where
  | num (q : ℚ)
  | inf
  | negInf
  | nan
deriving DecidableEq

/-- Rational addition written through `mkRat` so that it reduces inside
`decide` (the library `Rat.add` is `@[irreducible]`); it equals `a + b`, see
`addQ_eq`. -/
def addQ (a b : ℚ) : ℚ := mkRat (a.num * b.den + b.num * a.den) (a.den * b.den)

/-- Rational multiplication through `mkRat`; equals `a * b`, see `mulQ_eq`. -/
def mulQ (a b : ℚ) : ℚ := mkRat (a.num * b.num) (a.den * b.den)

/-- Rational division through `mkRat` (caller guarantees `b ≠ 0`); equals
`a / b`, see `divQ_eq`. -/
def divQ (a b : ℚ) : ℚ :=
  if 0 ≤ a.den * b.num then mkRat (a.num * b.den) (a.den * b.num).toNat
  else mkRat (-(a.num * b.den)) (-(a.den * b.num)).toNat

theorem addQ_eq (a b : ℚ) : addQ a b = a + b := (Rat.add_def' a b).symm

theorem mulQ_eq (a b : ℚ) : mulQ a b = a * b := by
  rw [mulQ, Rat.mul_def, Rat.normalize_eq_mkRat]

theorem divQ_eq (a b : ℚ) : divQ a b = a / b := by
  rw [Rat.div_def', divQ]
  by_cases hsg : (0 : ℤ) ≤ a.den * b.num
  · rw [if_pos hsg, Rat.mkRat_eq_divInt, Int.toNat_of_nonneg hsg]
  · rw [if_neg hsg, Rat.mkRat_eq_divInt,
      Int.toNat_of_nonneg (by omega : (0 : ℤ) ≤ -((a.den : ℤ) * b.num)),
      Rat.divInt_neg, neg_neg]

/-- JS unary minus. -/
def jneg : JSNum → JSNum
  | .num q => .num (-q)
  | .inf => .negInf
  | .negInf => .inf
  | .nan => .nan

/-- JS addition with the IEEE non-finite propagation rules. -/
def jadd : JSNum → JSNum → JSNum
  | .nan, _ => .nan
  | _, .nan => .nan
  | .inf, .negInf => .nan
  | .negInf, .inf => .nan
  | .inf, _ => .inf
  | _, .inf => .inf
  | .negInf, _ => .negInf
  | _, .negInf => .negInf
  | .num a, .num b => .num (addQ a b)

/-- JS subtraction: `a - b` is `a + (-b)`. -/
def jsub (a b : JSNum) : JSNum := jadd a (jneg b)

/-- JS multiplication with the IEEE non-finite propagation rules. -/
def jmul : JSNum → JSNum → JSNum
  | .nan, _ => .nan
  | _, .nan => .nan
  | .inf, .inf => .inf
  | .inf, .negInf => .negInf
  | .negInf, .inf => .negInf
  | .negInf, .negInf => .inf
  | .inf, .num q => if 0 < q then .inf else if q < 0 then .negInf else .nan
  | .num q, .inf => if 0 < q then .inf else if q < 0 then .negInf else .nan
  | .negInf, .num q => if 0 < q then .negInf else if q < 0 then .inf else .nan
  | .num q, .negInf => if 0 < q then .negInf else if q < 0 then .inf else .nan
  | .num a, .num b => .num (mulQ a b)

/-- JS division: division by zero yields an infinity (or `NaN` for `0/0`)
rather than an error, which is how `script.js` surfaces `Infinity`/`NaN`. -/
def jdiv : JSNum → JSNum → JSNum
  | .nan, _ => .nan
  | _, .nan => .nan
  | .inf, .inf => .nan
  | .inf, .negInf => .nan
  | .negInf, .inf => .nan
  | .negInf, .negInf => .nan
  | .inf, .num q => if 0 ≤ q then .inf else .negInf
  | .negInf, .num q => if 0 ≤ q then .negInf else .inf
  | .num _, .inf => .num 0
  | .num _, .negInf => .num 0
  | .num a, .num b =>
    if b = 0 then (if 0 < a then .inf else if a < 0 then .negInf else .nan)
    else .num (divQ a b)

/-- Remainder of finite values: `a - b * t` where `t` is `a / b` truncated
toward zero; with `a / b = (a.num * b.den) / (a.den * b.num)` exactly,
truncation toward zero is `Int.tdiv` of numerator by denominator. -/
def remQ (a b : ℚ) : ℚ :=
  mkRat (a.num * b.den - b.num * Int.tdiv (a.num * b.den) (a.den * b.num) * a.den)
    (a.den * b.den)

/-- JS remainder operator `%` on numbers: `a - b * trunc(a / b)`, with the
non-finite rules (`x % Infinity = x` for finite `x`, otherwise `NaN`). -/
def jrem : JSNum → JSNum → JSNum
  | .nan, _ => .nan
  | _, .nan => .nan
  | .inf, _ => .nan
  | .negInf, _ => .nan
  | .num a, .inf => .num a
  | .num a, .negInf => .num a
  | .num a, .num b => if b = 0 then .nan else .num (remQ a b)

/-- Tokens of the JS expression fragment reachable from `safeEval`.  The
compound punctuators `++`, `--`, `**` are lexed by maximal munch as in JS;
applied to numeric literals they are early syntax errors (and adjacent
operator pairs cannot survive `sanitizeExpression` anyway), so the parser
rejects them. -/
inductive Tok where
  | num (q : ℚ)
  | plus
  | minus
  | star
  | slash
  | percent
  | lparen
  | rparen
  | inc
  | dec
  | pow
deriving DecidableEq

/-- Value of a digit string. -/
def digitsToNat (ds : List Char) : Nat :=
  ds.foldl (fun n c => 10 * n + (c.toNat - '0'.toNat)) 0

/-- Value of a numeric literal with integer digits `ds` and fraction digits
`fs`, i.e. the rational `ds + fs / 10 ^ |fs|`, built through `mkRat` so it
reduces inside `decide`. -/
def numLit (ds fs : List Char) : ℚ :=
  mkRat ((digitsToNat ds : ℤ) * 10 ^ fs.length + (digitsToNat fs : ℤ))
    (10 ^ fs.length)

/-- Lexer for the expression handed to `Function` by `safeEval`.  Numeric
literals follow strict mode (the body starts with `"use strict"`): an integer
literal `0` followed by another digit is a syntax error (legacy octal /
non-octal decimal).  A `.` not followed by a digit can never complete a parse
in this character set, so it is rejected here.  Fuel is the input length:
every step consumes at least one character. -/
def lexTokens : Nat → List Char → Option (List Tok)
  | _, [] => some []
  | 0, _ :: _ => none
  | fuel+1, c :: rest =>
    if jsWs c then lexTokens fuel rest
    else if c = '+' then
      match rest with
      | '+' :: r => (lexTokens fuel r).map (Tok.inc :: ·)
      | _ => (lexTokens fuel rest).map (Tok.plus :: ·)
    else if c = '-' then
      match rest with
      | '-' :: r => (lexTokens fuel r).map (Tok.dec :: ·)
      | _ => (lexTokens fuel rest).map (Tok.minus :: ·)
    else if c = '*' then
      match rest with
      | '*' :: r => (lexTokens fuel r).map (Tok.pow :: ·)
      | _ => (lexTokens fuel rest).map (Tok.star :: ·)
    else if c = '/' then (lexTokens fuel rest).map (Tok.slash :: ·)
    else if c = '%' then (lexTokens fuel rest).map (Tok.percent :: ·)
    else if c = '(' then (lexTokens fuel rest).map (Tok.lparen :: ·)
    else if c = ')' then (lexTokens fuel rest).map (Tok.rparen :: ·)
    else if c = '.' then
      match rest with
      | d :: _ =>
        if d.isDigit then
          let p := rest.span (fun x => x.isDigit)
          (lexTokens fuel p.2).map (Tok.num (numLit [] p.1) :: ·)
        else none
      | [] => none
    else if c.isDigit then
      let p := rest.span (fun x => x.isDigit)
      let ds := c :: p.1
      match ds with
      | '0' :: _ :: _ => none
      | _ =>
        match p.2 with
        | '.' :: r2 =>
          let p2 := r2.span (fun x => x.isDigit)
          (lexTokens fuel p2.2).map (Tok.num (numLit ds p2.1) :: ·)
        | _ => (lexTokens fuel p.2).map (Tok.num (numLit ds []) :: ·)
    else none

/-- Parsing modes: additive level, its left-assoc loop, multiplicative level,
its loop, unary level, primary level — the ECMAScript grammar restricted to
the tokens above. -/
inductive PMode where
  | add
  | addLoop (v : JSNum)
  | mul
  | mulLoop (v : JSNum)
  | unary
  | primary

/-- Recursive-descent evaluator of the token stream, mirroring how the JS
engine parses and evaluates `+ - * / %` with precedence, parentheses and
unary `+`/`-`.  Fuel-indexed for structural recursion; fuel linear in the
token count is sufficient. -/
def parseGo : Nat → PMode → List Tok → Option (JSNum × List Tok)
  | 0, _, _ => none
  | fuel+1, mode, ts =>
    match mode with
    | .add =>
      match parseGo fuel .mul ts with
      | some (v, r) => parseGo fuel (.addLoop v) r
      | none => none
    | .addLoop v =>
      match ts with
      | .plus :: r =>
        match parseGo fuel .mul r with
        | some (w, r') => parseGo fuel (.addLoop (jadd v w)) r'
        | none => none
      | .minus :: r =>
        match parseGo fuel .mul r with
        | some (w, r') => parseGo fuel (.addLoop (jsub v w)) r'
        | none => none
      | _ => some (v, ts)
    | .mul =>
      match parseGo fuel .unary ts with
      | some (v, r) => parseGo fuel (.mulLoop v) r
      | none => none
    | .mulLoop v =>
      match ts with
      | .star :: r =>
        match parseGo fuel .unary r with
        | some (w, r') => parseGo fuel (.mulLoop (jmul v w)) r'
        | none => none
      | .slash :: r =>
        match parseGo fuel .unary r with
        | some (w, r') => parseGo fuel (.mulLoop (jdiv v w)) r'
        | none => none
      | .percent :: r =>
        match parseGo fuel .unary r with
        | some (w, r') => parseGo fuel (.mulLoop (jrem v w)) r'
        | none => none
      | _ => some (v, ts)
    | .unary =>
      match ts with
      | .plus :: r => parseGo fuel .unary r
      | .minus :: r =>
        match parseGo fuel .unary r with
        | some (v, r') => some (jneg v, r')
        | none => none
      | _ => parseGo fuel .primary ts
    | .primary =>
      match ts with
      | .num q :: r => some (.num q, r)
      | .lparen :: r =>
        match parseGo fuel .add r with
        | some (v, .rparen :: r') => some (v, r')
        | _ => none
      | _ => none

/-- Evaluation of the sanitized expression by
`Function('"use strict"; return (' + expr + ');')`: the wrapper puts the text
between parentheses, so the engine lexes `(expr)` and evaluates it as one
expression (which is why a string like `1)+(2` with balanced-after-wrapping
parentheses still evaluates).  `none` is a `SyntaxError`. -/
def runParse (expr : List Char) : Option JSNum :=
  let wrapped := '(' :: (expr ++ [')'])
  match lexTokens wrapped.length wrapped with
  | some ts =>
    match parseGo (8 * ts.length + 8) .add ts with
    | some (v, []) => some v
    | _ => none
  | none => none

/-- Errors of `safeEval`: `invalidChars` is the explicit
`throw new Error("Invalid characters")`; `syntaxError` is a `SyntaxError`
escaping the `Function` evaluation. -/
inductive EvalErr where
  | invalidChars
  | syntaxError
deriving DecidableEq

deriving instance DecidableEq for Except

/-- The function `safeEval` of `script.js` (lines 67-80): normalize percent,
sanitize, validate the ORIGINAL input against the character-set regex, then
evaluate the sanitized form. -/
def safeEval (expression : List Char) : Except EvalErr JSNum :=
  let expr := sanitizeExpression (normalizePercent expression)
  if validExpression expression then
    match runParse expr with
    | some v => .ok v
    | none => .error .syntaxError
  else .error .invalidChars

/-- Variant of `safeEval` written from the SPEC'S words for comparison only
(claim C1): identical pipeline, but the character-set validation is applied
to the percent-rewritten/sanitized form instead of the raw input.  The source
function validates the raw input; this definition exists to exhibit an input
on which the two differ. -/
def safeEvalValidateSanitized (expression : List Char) : Except EvalErr JSNum :=
  let expr := sanitizeExpression (normalizePercent expression)
  if validExpression expr then
    match runParse expr with
    | some v => .ok v
    | none => .error .syntaxError
  else .error .invalidChars

/-- Sentinel test opening `appendValue` (line 85 of `script.js`):
`display.value === "Error" || === "Infinity" || === "NaN"`. -/
def errorSentinel (d : List Char) : Bool :=
  decide (d = "Error".data ∨ d = "Infinity".data ∨ d = "NaN".data)

/-- Test `"+-*/".includes(lastChar)` of `appendValue` (line 94): `lastChar` is
`slice(-1)`, the empty string on an empty buffer, and JS `includes("")` is
true — hence `none ↦ true` below.  (On an empty buffer the branch taken is
then `slice(0,-1) + value`, which on the empty string equals plain append, so
the quirk is behaviour-preserving.) -/
def lastCharInOps (d : List Char) : Bool :=
  match d.getLast? with
  | some c => isOpChar c
  | none => true

/-- Last numeric segment of the buffer: the suffix after the final character
matched by `split(/[\+\-\*\/%]/)` (line 103 of `script.js`). -/
def lastSegment (d : List Char) : List Char :=
  (d.reverse.takeWhile (fun c => !(isOpChar c || c = '%'))).reverse

/-- Body of `appendValue` after the sentinel clear (lines 89-110 of
`script.js`): operator handling, decimal-point handling, then plain append. -/
def appendValueCore (v : Char) (d : List Char) : List Char :=
  if isOpChar v then
    if d.isEmpty && !(v = '-') then d
    else if lastCharInOps d then d.dropLast ++ [v]
    else d ++ [v]
  else if v = '.' then
    if (lastSegment d).contains '.' then d
    else if (lastSegment d).isEmpty then d ++ ['0', '.']
    else d ++ ['.']
  else d ++ [v]

/-- The function `appendValue` of `script.js` (lines 83-111), for a
single-character keystroke `v`: clear the buffer first when it shows an error
sentinel, then apply the keystroke. -/
def appendValue (v : Char) (d : List Char) : List Char :=
  appendValueCore v (if errorSentinel d then [] else d)

/-- The function `deleteLast` of `script.js` (lines 117-123): a buffer equal
to `"Error"` (and only that value) is cleared whole; otherwise
`slice(0, -1)` removes the last character. -/
def deleteLast (d : List Char) : List Char :=
  if d = "Error".data then [] else d.dropLast

/-- Post-evaluation rounding of `calculateResult` (lines 132-134 of
`script.js`): `Number.isInteger(result)` passes integers through, otherwise
`parseFloat(result.toFixed(10))`.  `toFixed(10)` rounds the exact value to 10
fractional digits, ties away from zero toward plus infinity (the larger `n`),
i.e. `⌊x * 10^10 + 1/2⌋ / 10^10`, and `parseFloat` reads the decimal string
back; the composition is the identity on `Infinity` and `NaN`.  Written with
integer floor division (for `q.den > 0`,
`⌊q*10^10 + 1/2⌋ = (2*q.num*10^10 + q.den) / (2*q.den)`, see
`round10_eq_floor`) so it reduces inside `decide`. -/
def round10 (q : ℚ) : ℚ :=
  mkRat ((2 * q.num * 10 ^ 10 + (q.den : ℤ)) / (2 * (q.den : ℤ))) (10 ^ 10)

/-- The conditional rounding of `calculateResult`:
`Number.isInteger(q)` is `q.den = 1` for finite values and false for
`Infinity`/`NaN`, on which `parseFloat(x.toFixed(10))` is the identity. -/
def roundResult : JSNum → JSNum
  | .num q => if q.den = 1 then .num q else .num (round10 q)
  | x => x

/-- Decimal digit characters of a natural number. -/
def natDigits (n : Nat) : List Char := Nat.toDigits 10 n

/-- Drop trailing `'0'` characters. -/
def stripTrailingZeros (l : List Char) : List Char :=
  (l.reverse.dropWhile (fun c => c = '0')).reverse

/-- JS `String(x)` for a non-negative rational whose denominator divides
`10^10` — the only finite values `script.js` passes to `String` are integers
or `round10` results, both of that shape.  (JS switches to exponential
notation for magnitudes `≥ 1e21` or `< 1e-6`; no claim depends on the string
shape in those ranges, and the final `else` branch is unreachable from
`calculateResult`.) -/
def ratPosToString (n : ℤ) (d : ℕ) : List Char :=
  if d = 1 then natDigits n.toNat
  else if (n.toNat * 10 ^ 10) % d = 0 then
    let m := n.toNat * 10 ^ 10 / d
    let ip := m / 10 ^ 10
    let fp := m % 10 ^ 10
    let fpd := List.replicate (10 - (natDigits fp).length) '0' ++ natDigits fp
    natDigits ip ++ '.' :: stripTrailingZeros fpd
  else natDigits n.toNat ++ '/' :: natDigits d

/-- JS `String(x)` on the values surfaced by `calculateResult`. -/
def jsToString : JSNum → List Char
  | .nan => "NaN".data
  | .inf => "Infinity".data
  | .negInf => "-Infinity".data
  | .num q => if q.num < 0 then '-' :: ratPosToString (-q.num) q.den
              else ratPosToString q.num q.den

/-- History entry, the object `{expr, result, time}` built by `addToHistory`
(lines 144-148 of `script.js`); `time` is the opaque ISO timestamp. -/
structure HistoryEntry where
  expr : List Char
  result : List Char
  time : String
deriving DecidableEq

/-- Insertion step of `addToHistory` (lines 149-150 of `script.js`):
`history.unshift(entry)` puts the new entry first; `if (history.length > 200)
history.pop()` then drops the last (oldest) entry. -/
def histPush (entry : HistoryEntry) (h : List HistoryEntry) : List HistoryEntry :=
  if 200 < (entry :: h).length then (entry :: h).dropLast else entry :: h

/-- The function `addToHistory` of `script.js` (lines 143-153), minus the
storage/DOM side effects: build the entry and push it newest-first with the
200-entry cap. -/
def addToHistory (expression result : List Char) (time : String)
    (h : List HistoryEntry) : List HistoryEntry :=
  histPush ⟨expression, result, time⟩ h

/-- Calculator state touched by `calculateResult`: the display buffer
(`display.value`) and the history array. -/
structure CalcState where
  display : List Char
  history : List HistoryEntry
deriving DecidableEq

/-- The function `calculateResult` of `script.js` (lines 126-141): trim the
buffer, return unchanged when empty, otherwise evaluate; on success round,
record in history and show the result; on any thrown error show `"Error"`
and leave the history alone. -/
def calculateResult (st : CalcState) (now : String) : CalcState :=
  if jsTrim st.display = [] then st
  else
    match safeEval (jsTrim st.display) with
    | .error _ => ⟨"Error".data, st.history⟩
    | .ok v =>
      ⟨jsToString (roundResult v),
       addToHistory (jsTrim st.display) (jsToString (roundResult v)) now st.history⟩

/-- The sample rows of `addSampleData` (lines 207-213 of `script.js`), each
an expression with the result the sample data records for it. -/
def sampleData : List (List Char × List Char) :=
  [("5+3".data, "8".data), ("12/4".data, "3".data), ("7*6".data, "42".data),
   ("50%".data, "0.5".data), ("200-10%".data, "180".data)]

/-- The function `addSampleData` of `script.js` (lines 206-219): each sample
is unshifted in order, with no cap applied. -/
def addSampleData (time : String) (h : List HistoryEntry) : List HistoryEntry :=
  sampleData.foldl (fun acc s => ⟨s.1, s.2, time⟩ :: acc) h

example : safeEval "5+3".data = .ok (.num (mkRat 8 1)) := by decide
example : safeEval "12/4".data = .ok (.num (mkRat 3 1)) := by decide
example : safeEval "7*6".data = .ok (.num (mkRat 42 1)) := by decide
example : safeEval "50%".data = .ok (.num (mkRat 1 2)) := by decide
example : safeEval "200-10%".data = .ok (.num (mkRat 1999 10)) := by decide
example : safeEval "abc".data = .error .invalidChars := by decide
example : safeEval "()".data = .error .syntaxError := by decide
example : safeEval "5%%".data = .error .syntaxError := by decide
example : safeEval "+".data = .error .syntaxError := by decide
example : safeEvalValidateSanitized "+".data = .error .invalidChars := by decide
example : sanitizeExpression "-+5".data = "+5".data := by decide
example : safeEval "1/3".data = .ok (.num (mkRat 1 3)) := by decide
example : safeEval "5-    -3".data = .ok (.num (mkRat 8 1)) := by decide
example : safeEval "1)+(2".data = .ok (.num (mkRat 3 1)) := by decide
example : safeEval "05".data = .error .syntaxError := by decide
example : safeEval "5--3".data = .ok (.num (mkRat 2 1)) := by decide
example : jsToString (roundResult (.num (mkRat 1999 10))) = "199.9".data := by decide
example : jsToString (roundResult (.num (mkRat 1 3))) = "0.3333333333".data := by decide
example : jsToString (roundResult (.num (mkRat (-1) 2))) = "-0.5".data := by decide
example : jsToString (roundResult (.num (mkRat 8 1))) = "8".data := by decide
example : appendValue '7' "Error".data = ['7'] := by decide
example : appendValue '-' [] = ['-'] := by decide
example : appendValue '+' [] = [] := by decide
example : appendValue '+' "5+".data = "5+".data := by decide
example : appendValue '*' "5+".data = "5*".data := by decide
example : appendValue '.' "5+".data = "5+0.".data := by decide
example : appendValue '.' "5.2".data = "5.2".data := by decide
example : deleteLast "Infinity".data = "Infinit".data := by decide
example : deleteLast "Error".data = [] := by decide
example : calculateResult ⟨"()".data, []⟩ "t" = ⟨"Error".data, []⟩ := by decide
example : calculateResult ⟨" 5+3 ".data, []⟩ "t" =
    ⟨"8".data, [⟨"5+3".data, "8".data, "t"⟩]⟩ := by decide

/-- Character set of claim C3/C4 inputs: digits, the four operators,
parentheses, dot, percent. -/
def exprCharList : List Char := "0123456789+-*/().%".data

/-- No two adjacent characters of the list are both operator characters. -/
def noConsecOps : List Char → Bool
  | a :: b :: r => !(isOpChar a && isOpChar b) && noConsecOps (b :: r)
  | _ => true

theorem jsWs_false_of_exprChar : ∀ c ∈ exprCharList, jsWs c = false := by decide

theorem collapseOps_cons_cons (a b : Char) (r : List Char) :
    collapseOps (a :: b :: r)
      = if isOpChar a && isOpChar b then collapseOps (b :: r)
        else a :: collapseOps (b :: r) := rfl

theorem dropWhile_eq_self_of {p : Char → Bool} {l : List Char}
    (h : ∀ c ∈ l, p c = false) : l.dropWhile p = l := by
  cases l with
  | nil => rfl
  | cons c cs =>
    rw [List.dropWhile_cons, h c (by simp)]
    simp

theorem jsTrim_id {s : List Char} (h : ∀ c ∈ s, jsWs c = false) : jsTrim s = s := by
  unfold jsTrim
  rw [dropWhile_eq_self_of h,
    dropWhile_eq_self_of (fun c hc => h c (List.mem_reverse.mp hc)),
    List.reverse_reverse]

theorem noConsecOps_tail {x : Char} {xs : List Char}
    (h : noConsecOps (x :: xs) = true) : noConsecOps xs = true := by
  cases xs with
  | nil => rfl
  | cons b r =>
    rw [noConsecOps, Bool.and_eq_true] at h
    exact h.2

theorem collapseOps_of_noConsec : ∀ s : List Char,
    noConsecOps s = true → collapseOps s = s := by
  intro s
  induction s with
  | nil => intro _; rfl
  | cons a t ih =>
    cases t with
    | nil => intro _; rfl
    | cons b r =>
      intro h
      rw [noConsecOps, Bool.and_eq_true, Bool.not_eq_true'] at h
      rw [collapseOps_cons_cons, if_neg (by rw [h.1]; exact Bool.false_ne_true)]
      rw [ih h.2]

theorem collapseOps_opsRun : ∀ run : List Char,
    (∀ c ∈ run, isOpChar c = true) → ∀ l : Char, run.getLast? = some l →
    ∀ b : List Char, (∀ y, b.head? = some y → isOpChar y = false) →
    collapseOps (run ++ b) = l :: collapseOps b := by
  intro run
  induction run with
  | nil => intro _ l hl; simp at hl
  | cons x rest ih =>
    intro hops l hl b hb
    cases rest with
    | nil =>
      have hx : x = l := by simpa using hl
      subst hx
      cases b with
      | nil => rfl
      | cons y ys =>
        have hy : isOpChar y = false := hb y rfl
        show collapseOps (x :: y :: ys) = x :: collapseOps (y :: ys)
        rw [collapseOps_cons_cons,
          if_neg (by rw [hy, Bool.and_false]; exact Bool.false_ne_true)]
    | cons x2 r2 =>
      have hx : isOpChar x = true := hops x (by simp)
      have hx2 : isOpChar x2 = true := hops x2 (by simp)
      rw [List.getLast?_cons_cons] at hl
      show collapseOps (x :: x2 :: (r2 ++ b)) = l :: collapseOps b
      rw [collapseOps_cons_cons, if_pos (by rw [hx, hx2]; rfl)]
      have hih := ih (fun c hc => hops c (List.mem_cons_of_mem _ hc)) l hl b hb
      rw [List.cons_append] at hih
      exact hih

theorem collapseOps_append : ∀ a t : List Char,
    (∀ x, a.getLast? = some x → isOpChar x = false) →
    collapseOps (a ++ t) = collapseOps a ++ collapseOps t := by
  intro a
  induction a with
  | nil => intro t _; rfl
  | cons x a' ih =>
    intro t ha
    cases a' with
    | nil =>
      have hx : isOpChar x = false := ha x (by simp)
      cases t with
      | nil => rfl
      | cons y ys =>
        show collapseOps (x :: y :: ys) = collapseOps [x] ++ collapseOps (y :: ys)
        rw [collapseOps_cons_cons, if_neg (by rw [hx]; exact Bool.false_ne_true)]
        rfl
    | cons z a'' =>
      have ha' : ∀ u, (z :: a'').getLast? = some u → isOpChar u = false := by
        intro u hu
        exact ha u (by rw [List.getLast?_cons_cons]; exact hu)
      have hih := ih t ha'
      rw [List.cons_append] at hih
      show collapseOps (x :: z :: (a'' ++ t)) = collapseOps (x :: z :: a'') ++ collapseOps t
      cases hxz : (isOpChar x && isOpChar z) with
      | true =>
        rw [collapseOps_cons_cons, if_pos hxz, collapseOps_cons_cons, if_pos hxz]
        exact hih
      | false =>
        rw [collapseOps_cons_cons, if_neg (by rw [hxz]; exact Bool.false_ne_true),
          collapseOps_cons_cons, if_neg (by rw [hxz]; exact Bool.false_ne_true),
          List.cons_append, hih]

theorem round10_eq_floor (q : ℚ) :
    round10 q = ((⌊q * 10 ^ 10 + 1 / 2⌋ : ℤ) : ℚ) / 10 ^ 10 := by
  have hden : ((q.den : ℚ)) ≠ 0 := by
    exact_mod_cast q.den_nz
  have hx : q * 10 ^ 10 + 1 / 2
      = ((2 * q.num * 10 ^ 10 + (q.den : ℤ) : ℤ) : ℚ) / ((2 * q.den : ℕ) : ℚ) := by
    conv_lhs => rw [← Rat.num_div_den q]
    push_cast
    field_simp
    ring
  rw [hx, Rat.floor_intCast_div_natCast, round10, Rat.mkRat_eq_divInt,
    Rat.divInt_eq_div]
  push_cast
  ring_nf

theorem round10_mul_pow_den (q : ℚ) : (round10 q * 10 ^ 10).den = 1 := by
  rw [round10_eq_floor, div_mul_cancel₀]
  · exact Rat.den_intCast _
  · positivity

theorem round10_close (q : ℚ) : |round10 q - q| ≤ 1 / (2 * 10 ^ 10) := by
  have h10 : (0 : ℚ) < 10 ^ 10 := by positivity
  have hle : ((⌊q * 10 ^ 10 + 1 / 2⌋ : ℤ) : ℚ) ≤ q * 10 ^ 10 + 1 / 2 :=
    Int.floor_le _
  have hlt : q * 10 ^ 10 + 1 / 2 < ((⌊q * 10 ^ 10 + 1 / 2⌋ : ℤ) : ℚ) + 1 :=
    Int.lt_floor_add_one _
  have key : round10 q - q
      = (((⌊q * 10 ^ 10 + 1 / 2⌋ : ℤ) : ℚ) - q * 10 ^ 10) / 10 ^ 10 := by
    rw [round10_eq_floor, sub_div, mul_div_assoc]
    rw [div_self (ne_of_gt h10), mul_one]
  rw [key, abs_div, abs_of_pos h10]
  have habs : |((⌊q * 10 ^ 10 + 1 / 2⌋ : ℤ) : ℚ) - q * 10 ^ 10| ≤ 1 / 2 :=
    abs_le.mpr ⟨by linarith, by linarith⟩
  calc |((⌊q * 10 ^ 10 + 1 / 2⌋ : ℤ) : ℚ) - q * 10 ^ 10| / 10 ^ 10
      ≤ (1 / 2) / 10 ^ 10 := by
        exact (div_le_div_iff_of_pos_right h10).mpr habs
    _ = 1 / (2 * 10 ^ 10) := by norm_num

theorem den_one_mul_pow (q : ℚ) (h : q.den = 1) : (q * 10 ^ 10).den = 1 := by
  have hq : q = ((q.num : ℤ) : ℚ) := by
    conv_lhs => rw [← Rat.num_div_den q]
    rw [h]
    norm_num
  rw [hq, show ((q.num : ℤ) : ℚ) * 10 ^ 10 = ((q.num * 10 ^ 10 : ℤ) : ℚ) by push_cast; ring]
  exact Rat.den_intCast _

theorem histPush_head (e : HistoryEntry) (h : List HistoryEntry) :
    ∃ rest, histPush e h = e :: rest := by
  unfold histPush
  split
  · cases h with
    | nil => simp_all
    | cons b t =>
      exact ⟨(b :: t).dropLast, by rw [List.dropLast_cons_of_ne_nil (by simp)]⟩
  · exact ⟨h, rfl⟩

/-- Repeated insertion (oldest first) into an initially empty history. -/
def insertAllHist (es : List HistoryEntry) : List HistoryEntry :=
  es.foldl (fun h e => histPush e h) []

theorem insertAll_acc : ∀ es acc : List HistoryEntry,
    acc.length + es.length ≤ 200 →
    es.foldl (fun h e => histPush e h) acc = es.reverse ++ acc := by
  intro es
  induction es with
  | nil => intro acc _; simp
  | cons e es' ih =>
    intro acc hlen
    simp only [List.length_cons] at hlen
    rw [List.foldl_cons]
    have hpush : histPush e acc = e :: acc := by
      unfold histPush
      rw [if_neg (by simp only [List.length_cons]; omega)]
    rw [hpush, ih (e :: acc) (by simp only [List.length_cons]; omega)]
    simp [List.reverse_cons, List.append_assoc]

theorem insertAll_201 (es : List HistoryEntry) (h201 : es.length = 201) :
    insertAllHist es = (es.drop 1).reverse := by
  have hne : es ≠ [] := by
    intro h
    rw [h] at h201
    simp at h201
  obtain ⟨front, last, rfl⟩ : ∃ front last, es = front ++ [last] :=
    ⟨es.dropLast, es.getLast hne, (List.dropLast_concat_getLast hne).symm⟩
  have hfl : front.length = 200 := by
    simp only [List.length_append, List.length_cons, List.length_nil] at h201
    omega
  unfold insertAllHist
  rw [List.foldl_append,
    insertAll_acc front [] (by simp only [List.length_nil]; omega),
    List.append_nil]
  simp only [List.foldl_cons, List.foldl_nil]
  unfold histPush
  rw [if_pos (by simp [hfl])]
  cases front with
  | nil => simp at hfl
  | cons f fr =>
    rw [List.dropLast_cons_of_ne_nil (by simp), List.reverse_cons,
      List.dropLast_concat]
    simp

theorem stripLeadingOp_cons (c : Char) (r : List Char) :
    stripLeadingOp (c :: r)
      = if decide (c = '+' ∨ c = '*' ∨ c = '/') then r else c :: r := rfl

theorem roundResult_num (q : ℚ) :
    roundResult (.num q) = if q.den = 1 then .num q else .num (round10 q) := rfl

/-- C1: `evaluate(raw)` fails with `InvalidExpression` whenever the raw input
contains a character outside `{digits, + - * / ( ) ., whitespace, %}`, and
the character-set check is applied to the ORIGINAL raw string: on the input
`"+"` the raw string passes the check and the failure is instead a
`SyntaxError` from evaluating the emptied sanitized form, while the
spec-words variant that validates the percent-rewritten/sanitized form
reports `invalidChars` there. -/
theorem spec_c1 :
    (∀ raw : List Char, (∃ c ∈ raw, isAllowedChar c = false) →
      safeEval raw = .error .invalidChars)
    ∧ safeEval "+".data = .error .syntaxError
    ∧ safeEvalValidateSanitized "+".data = .error .invalidChars := by
  refine ⟨?_, by decide, by decide⟩
  rintro raw ⟨c, hc, hbad⟩
  have hall : raw.all isAllowedChar = false := by
    by_contra hcon
    rw [Bool.not_eq_false] at hcon
    exact absurd (List.all_eq_true.mp hcon c hc)
      (by rw [hbad]; exact Bool.false_ne_true)
  have hval : validExpression raw = false := by
    unfold validExpression
    rw [hall, Bool.and_false]
  unfold safeEval
  rw [hval]
  rfl

/-- Witness for C1 at the spec's concrete input `"abc"`. -/
theorem spec_c1_witness : safeEval "abc".data = .error .invalidChars :=
  spec_c1.1 "abc".data ⟨'a', by decide, by decide⟩

/-- C2: the bundled sample row records `200-10% -> 180`, but the evaluator
rewrites `200-10%` to `200-(10/100)` and computes `199.9` (exactly
`1999/10`), which is also the string surfaced after rounding — the code
contradicts its own sample data. -/
theorem spec_c2 :
    sanitizeExpression (normalizePercent "200-10%".data) = "200-(10/100)".data
    ∧ safeEval "200-10%".data = .ok (.num (1999 / 10))
    ∧ jsToString (roundResult (.num (1999 / 10))) = "199.9".data
    ∧ ("200-10%".data, "180".data) ∈ sampleData
    ∧ (1999 / 10 : ℚ) ≠ 180 := by
  have hlit : (1999 / 10 : ℚ) = mkRat 1999 10 := by
    rw [Rat.mkRat_eq_divInt, Rat.divInt_eq_div]
    norm_num
  refine ⟨by decide, by rw [hlit]; decide, by rw [hlit]; decide, by decide,
    by rw [hlit]; decide⟩

/-- C3 counterexample: `"-+5"` is over the claim's character set, yet
normalization returns `"+5"`, which begins with `'+'` — the leading-operator
strip looks only at the first character (`-` here), and collapsing the run
`-+` keeps its final `+` at the front. -/
theorem spec_c3_counterexample :
    "-+5".data.all (fun c => decide (c ∈ exprCharList)) = true
    ∧ sanitizeExpression "-+5".data = "+5".data
    ∧ (sanitizeExpression "-+5".data).head? = some '+' := by decide

/-- C3 (amended): for strings over the claim's character set with no two
consecutive operator characters (the invariant the key handler maintains for
the buffer), normalization never returns a string beginning with `'+'`,
`'*'` or `'/'`. -/
theorem spec_c3_amended (s : List Char)
    (hchars : ∀ c ∈ s, c ∈ exprCharList)
    (hnc : noConsecOps s = true) :
    (sanitizeExpression s).head? ≠ some '+'
    ∧ (sanitizeExpression s).head? ≠ some '*'
    ∧ (sanitizeExpression s).head? ≠ some '/' := by
  have htrim : jsTrim s = s :=
    jsTrim_id (fun c hc => jsWs_false_of_exprChar c (hchars c hc))
  unfold sanitizeExpression
  rw [htrim]
  cases s with
  | nil => simp [stripLeadingOp, collapseOps]
  | cons x xs =>
    by_cases hx : x = '+' ∨ x = '*' ∨ x = '/'
    · rw [stripLeadingOp_cons, if_pos (decide_eq_true hx),
        collapseOps_of_noConsec xs (noConsecOps_tail hnc)]
      cases xs with
      | nil => simp
      | cons y ys =>
        have hopx : isOpChar x = true := by
          rw [isOpChar, decide_eq_true_eq]
          tauto
        have hopy : isOpChar y = false := by
          have hcc := hnc
          rw [noConsecOps, Bool.and_eq_true, Bool.not_eq_true'] at hcc
          have h1 := hcc.1
          rw [hopx, Bool.true_and] at h1
          exact h1
        have hy : ¬(y = '+' ∨ y = '-' ∨ y = '*' ∨ y = '/') := by
          rw [isOpChar, decide_eq_false_iff_not] at hopy
          exact hopy
        push_neg at hy
        simp [List.head?_cons, hy.1, hy.2.2.1, hy.2.2.2]
    · rw [stripLeadingOp_cons,
        if_neg (by rw [decide_eq_true_eq]; exact hx),
        collapseOps_of_noConsec _ hnc]
      push_neg at hx
      simp [List.head?_cons, hx.1, hx.2.1, hx.2.2]

/-- Witness for the amended C3 at the input `"+5"`. -/
theorem spec_c3_witness :
    (sanitizeExpression "+5".data).head? ≠ some '+'
    ∧ (sanitizeExpression "+5".data).head? ≠ some '*'
    ∧ (sanitizeExpression "+5".data).head? ≠ some '/' :=
  spec_c3_amended "+5".data (by decide) (by decide)

/-- C4: a maximal run (not preceded or followed by another operator
character) of two or more operator characters is collapsed by the
repeated-operator normalization step (line 62 of `script.js`, applied by
`sanitizeExpression` after trim and leading-strip) to exactly the run's last
character, in place. -/
theorem spec_c4 (a run b : List Char) (l : Char)
    (_hlen : 2 ≤ run.length)
    (hops : ∀ c ∈ run, isOpChar c = true)
    (ha : ∀ x, a.getLast? = some x → isOpChar x = false)
    (hb : ∀ y, b.head? = some y → isOpChar y = false)
    (hl : run.getLast? = some l) :
    collapseOps (a ++ run ++ b) = collapseOps a ++ l :: collapseOps b := by
  rw [List.append_assoc, collapseOps_append a (run ++ b) ha,
    collapseOps_opsRun run hops l hl b hb]

/-- Witness for C4: the run `+-` inside `5+-3` collapses to its last
character `-`. -/
theorem spec_c4_witness :
    collapseOps ("5".data ++ "+-".data ++ "3".data)
      = collapseOps "5".data ++ '-' :: collapseOps "3".data :=
  spec_c4 "5".data "+-".data "3".data '-' (by decide) (by decide) (by decide)
    (by decide) (by decide)

/-- C5: the evaluator computes the spec's concrete samples:
`5+3 = 8`, `12/4 = 3`, `7*6 = 42`, and `50% = 0.5` through the percent
rewrite. -/
theorem spec_c5 :
    safeEval "5+3".data = .ok (.num 8)
    ∧ safeEval "12/4".data = .ok (.num 3)
    ∧ safeEval "7*6".data = .ok (.num 42)
    ∧ safeEval "50%".data = .ok (.num (1 / 2)) := by
  have h2 : (1 / 2 : ℚ) = mkRat 1 2 := by
    rw [Rat.mkRat_eq_divInt, Rat.divInt_eq_div]
    norm_num
  exact ⟨by decide, by decide, by decide, by rw [h2]; decide⟩

/-- C6: on every successful finite evaluation, `calculateResult` surfaces to
the display and to the new history entry the rounded value `q'`: the exact
result when it is an integer (`q.den = 1` passes through unchanged), else the
result rounded to at most ten fractional decimal digits — `q' * 10^10` is
integral and `q'` is within half a last-place unit, `|q' - q| ≤ 1/(2*10^10)`.
-/
theorem spec_c6 (d : List Char) (h : List HistoryEntry) (now : String) (q : ℚ)
    (hne : jsTrim d ≠ []) (hev : safeEval (jsTrim d) = .ok (.num q)) :
    ∃ q' : ℚ,
      roundResult (.num q) = .num q'
      ∧ (calculateResult ⟨d, h⟩ now).display = jsToString (.num q')
      ∧ (∃ rest, (calculateResult ⟨d, h⟩ now).history
          = ⟨jsTrim d, jsToString (.num q'), now⟩ :: rest)
      ∧ (q.den = 1 → q' = q)
      ∧ (q' * 10 ^ 10).den = 1
      ∧ |q' - q| ≤ 1 / (2 * 10 ^ 10) := by
  have hcalc : calculateResult ⟨d, h⟩ now
      = ⟨jsToString (roundResult (.num q)),
         addToHistory (jsTrim d) (jsToString (roundResult (.num q))) now h⟩ := by
    unfold calculateResult
    dsimp only
    rw [if_neg hne, hev]
  by_cases hden : q.den = 1
  · refine ⟨q, ?_, ?_, ?_, fun _ => rfl, den_one_mul_pow q hden, ?_⟩
    · rw [roundResult_num, if_pos hden]
    · rw [hcalc, roundResult_num, if_pos hden]
    · rw [hcalc, roundResult_num, if_pos hden]
      exact histPush_head _ _
    · rw [sub_self, abs_zero]
      positivity
  · refine ⟨round10 q, ?_, ?_, ?_, fun hq => absurd hq hden,
      round10_mul_pow_den q, round10_close q⟩
    · rw [roundResult_num, if_neg hden]
    · rw [hcalc, roundResult_num, if_neg hden]
    · rw [hcalc, roundResult_num, if_neg hden]
      exact histPush_head _ _

/-- Witness for C6 at the input `"1/3"`, whose result `1/3` is rounded to
`0.3333333333`. -/
theorem spec_c6_witness :
    ∃ q' : ℚ,
      roundResult (.num (mkRat 1 3)) = .num q'
      ∧ (calculateResult ⟨"1/3".data, []⟩ "t").display = jsToString (.num q')
      ∧ (∃ rest, (calculateResult ⟨"1/3".data, []⟩ "t").history
          = ⟨jsTrim "1/3".data, jsToString (.num q'), "t"⟩ :: rest)
      ∧ ((mkRat 1 3).den = 1 → q' = mkRat 1 3)
      ∧ (q' * 10 ^ 10).den = 1
      ∧ |q' - mkRat 1 3| ≤ 1 / (2 * 10 ^ 10) :=
  spec_c6 "1/3".data [] "t" (mkRat 1 3) (by decide) (by decide)

/-- C7: the history is newest-first and capped at 200 entries: a push onto a
history of at most 200 entries yields at most 200; starting empty, up to 200
pushes give exactly the insertions newest-first; after 201 pushes the history
is the last 200 insertions newest-first, so the first insertion (when not
re-inserted later) is absent. -/
theorem spec_c7 :
    (∀ (h : List HistoryEntry) (e : HistoryEntry),
      h.length ≤ 200 → (histPush e h).length ≤ 200)
    ∧ (∀ es : List HistoryEntry, es.length ≤ 200 → insertAllHist es = es.reverse)
    ∧ (∀ es : List HistoryEntry, es.length = 201 →
        insertAllHist es = (es.drop 1).reverse
        ∧ ∀ e₀, es.head? = some e₀ → e₀ ∉ es.drop 1 → e₀ ∉ insertAllHist es) := by
  refine ⟨?_, ?_, ?_⟩
  · intro h e hlen
    unfold histPush
    split
    · rw [List.length_dropLast]
      simp only [List.length_cons]
      omega
    · next hng =>
      simp only [List.length_cons] at hng ⊢
      omega
  · intro es hlen
    unfold insertAllHist
    rw [insertAll_acc es [] (by simpa using hlen), List.append_nil]
  · intro es h201
    refine ⟨insertAll_201 es h201, ?_⟩
    intro e₀ _ hmem
    rw [insertAll_201 es h201, List.mem_reverse]
    exact hmem

/-- Witness for C7: one push onto the empty history. -/
theorem spec_c7_witness :
    (histPush ⟨"1+1".data, "2".data, "t"⟩ []).length ≤ 200 :=
  spec_c7.1 [] ⟨"1+1".data, "2".data, "t"⟩ (by decide)

/-- C8: a keystroke applied to a buffer showing an error sentinel
(`"Error"`, `"Infinity"` or `"NaN"`) behaves exactly as on a cleared buffer,
and a digit typed over `"Error"` leaves a buffer holding just that digit. -/
theorem spec_c8 :
    (∀ (v : Char) (s : List Char),
      (s = "Error".data ∨ s = "Infinity".data ∨ s = "NaN".data) →
      appendValue v s = appendValue v [])
    ∧ (∀ v : Char, v.isDigit = true → appendValue v "Error".data = [v]) := by
  constructor
  · rintro v s (rfl | rfl | rfl) <;> rfl
  · intro v hv
    have hop : isOpChar v = false := by
      rw [isOpChar, decide_eq_false_iff_not]
      rintro (rfl | rfl | rfl | rfl) <;> exact absurd hv (by decide)
    have hdot : ¬(v = '.') := by
      rintro rfl
      exact absurd hv (by decide)
    show appendValueCore v (if errorSentinel "Error".data then [] else "Error".data) = [v]
    rw [if_pos (by decide)]
    unfold appendValueCore
    rw [if_neg (by rw [hop]; exact Bool.false_ne_true), if_neg hdot]
    rfl

/-- Witness for C8 with the digit `'7'` typed over `"Error"`. -/
theorem spec_c8_witness :
    appendValue '7' "Error".data = appendValue '7' []
    ∧ appendValue '7' "Error".data = ['7'] :=
  ⟨spec_c8.1 '7' "Error".data (Or.inl rfl), spec_c8.2 '7' (by decide)⟩

/-- C9 counterexample: the claim treats `"Infinity"` and `"NaN"` as
error-sentinel states that delete clears whole, but `deleteLast` special-
cases only `"Error"`: deleting from `"Infinity"` trims one character. -/
theorem spec_c9_counterexample :
    deleteLast "Infinity".data = "Infinit".data
    ∧ deleteLast "Infinity".data ≠ [] := by decide

/-- C9 (amended): delete removes the last character of the buffer, except
when the buffer equals `"Error"` exactly, which clears the whole buffer;
`"Infinity"` and `"NaN"` are trimmed like ordinary text. -/
theorem spec_c9_amended (d : List Char) :
    (d = "Error".data → deleteLast d = [])
    ∧ (d ≠ "Error".data → deleteLast d = d.dropLast
        ∧ (deleteLast d).length = d.length - 1) := by
  constructor
  · intro hd
    unfold deleteLast
    rw [if_pos hd]
  · intro hd
    unfold deleteLast
    rw [if_neg hd]
    exact ⟨rfl, List.length_dropLast d⟩

/-- Witness for the amended C9 on the buffer `"NaN"`. -/
theorem spec_c9_witness :
    deleteLast "NaN".data = "NaN".data.dropLast
    ∧ (deleteLast "NaN".data).length = "NaN".data.length - 1 :=
  (spec_c9_amended "NaN".data).2 (by decide)

/-- C10: strings over the allowed character set can still fail evaluation —
`"()"` and `"5%%"` pass the character-set validation yet raise a
`SyntaxError` — and whenever evaluation of a non-empty trimmed buffer fails,
`calculateResult` sets the display to the sentinel `"Error"` and leaves the
history unchanged. -/
theorem spec_c10 :
    (validExpression "()".data = true ∧ safeEval "()".data = .error .syntaxError)
    ∧ (validExpression "5%%".data = true ∧ safeEval "5%%".data = .error .syntaxError)
    ∧ ∀ (d : List Char) (h : List HistoryEntry) (now : String) (e : EvalErr),
        jsTrim d ≠ [] → safeEval (jsTrim d) = .error e →
        calculateResult ⟨d, h⟩ now = ⟨"Error".data, h⟩ := by
  refine ⟨⟨by decide, by decide⟩, ⟨by decide, by decide⟩, ?_⟩
  intro d h now e hne hev
  unfold calculateResult
  dsimp only
  rw [if_neg hne, hev]

/-- Witness for C10's failure branch on the buffer `"()"`. -/
theorem spec_c10_witness :
    calculateResult ⟨"()".data, []⟩ "t" = ⟨"Error".data, []⟩ :=
  spec_c10.2.2 "()".data [] "t" .syntaxError (by decide) (by decide)
